import Mathlib

/-!
A shallow embedding of the wordle-solver program (src/main.rs) and proofs
about it.  Rust `[char; 5]` arrays become five-field structures, index
loops `for i in 0..5` become folds over the literal index list
`[0, 1, 2, 3, 4]`, early `return false` becomes an absorbing `none`
threaded through the fold, and panics become `Option.none` results.
-/

namespace WordleSolver

/-- A 5-letter word, mirroring the Rust `struct Word([char; 5])`. -/
structure Word where
  l0 : Char
  l1 : Char
  l2 : Char
  l3 : Char
  l4 : Char
deriving DecidableEq

/-- Positional read `word.0[i]`; the program only ever uses `i < 5`. -/
def Word.get (w : Word) (i : Nat) : Char :=
  match i with
  | 0 => w.l0
  | 1 => w.l1
  | 2 => w.l2
  | 3 => w.l3
  | _ => w.l4

/-- Positional write `word.0[i] = c`; the program only ever uses `i < 5`. -/
def Word.set (w : Word) (i : Nat) (c : Char) : Word :=
  match i with
  | 0 => { w with l0 := c }
  | 1 => { w with l1 := c }
  | 2 => { w with l2 := c }
  | 3 => { w with l3 := c }
  | _ => { w with l4 := c }

/-- Per-letter feedback status, mirroring `enum Status { Exact, Found, None }`. -/
inductive Status where
  | Exact
  | Found
  | None
deriving DecidableEq

/-- A feedback row, mirroring the Rust array `[Status; 5]`. -/
structure StatusRow where
  s0 : Status
  s1 : Status
  s2 : Status
  s3 : Status
  s4 : Status
deriving DecidableEq

/-- Positional read of the status array. -/
def StatusRow.get (r : StatusRow) (i : Nat) : Status :=
  match i with
  | 0 => r.s0
  | 1 => r.s1
  | 2 => r.s2
  | 3 => r.s3
  | _ => r.s4

/-- Positional write of the status array. -/
def StatusRow.set (r : StatusRow) (i : Nat) (s : Status) : StatusRow :=
  match i with
  | 0 => { r with s0 := s }
  | 1 => { r with s1 := s }
  | 2 => { r with s2 := s }
  | 3 => { r with s3 := s }
  | _ => { r with s4 := s }

/-- The all-`None` row produced by `Match::new`. -/
def StatusRow.allNone : StatusRow :=
  ⟨Status.None, Status.None, Status.None, Status.None, Status.None⟩

/-- Mirrors `struct Match { word: Word, status: [Status; 5] }`. -/
structure Match where
  word : Word
  status : StatusRow
deriving DecidableEq

/-- Mirrors `fn find_in_word`: the first index `i < 5` with `word.0[i] == needle`. -/
def find_in_word (word : Word) (needle : Char) : Option Nat :=
  if word.l0 = needle then some 0
  else if word.l1 = needle then some 1
  else if word.l2 = needle then some 2
  else if word.l3 = needle then some 3
  else if word.l4 = needle then some 4
  else none

/-- One iteration of the first loop of `Match::compute`: on an exact hit mark
`Exact` and blank that letter of the scratch answer. -/
def computeStep1 (guess : Word) (acc : StatusRow × Word) (i : Nat) : StatusRow × Word :=
  if guess.get i = acc.2.get i then (acc.1.set i Status.Exact, acc.2.set i '.')
  else acc

/-- One iteration of the second loop of `Match::compute`: if the guess letter
still occurs in the scratch answer, mark `Found` and blank that occurrence.
Note the Rust loop runs over all five positions, `Exact` ones included. -/
def computeStep2 (guess : Word) (acc : StatusRow × Word) (i : Nat) : StatusRow × Word :=
  match find_in_word acc.2 (guess.get i) with
  | some index => (acc.1.set i Status.Found, acc.2.set index '.')
  | none => acc

/-- Mirrors `Match::compute(guess, ans)`. -/
def Match.compute (guess ans : Word) : Match :=
  let p1 := [0, 1, 2, 3, 4].foldl (computeStep1 guess) (StatusRow.allNone, ans)
  let p2 := [0, 1, 2, 3, 4].foldl (computeStep2 guess) p1
  { word := guess, status := p2.1 }

/-- One iteration of the first loop of `Match::valid`: `Exact` demands the same
letter (then blanks it), `Found` forbids the same letter at that position.
`none` plays the role of the Rust early `return false`. -/
def validStep1 (m : Match) (acc : Option Word) (i : Nat) : Option Word :=
  match acc with
  | none => none
  | some w =>
    match m.status.get i with
    | Status.Exact => if w.get i ≠ m.word.get i then none else some (w.set i '.')
    | Status.Found => if w.get i = m.word.get i then none else some w
    | Status.None => some w

/-- One iteration of the second loop of `Match::valid`: each `Found` position
must consume a remaining occurrence of its letter. -/
def validStep2 (m : Match) (acc : Option Word) (i : Nat) : Option Word :=
  match acc with
  | none => none
  | some w =>
    match m.status.get i with
    | Status.Found =>
      match find_in_word w (m.word.get i) with
      | some index => some (w.set index '.')
      | none => none
    | _ => some w

/-- One iteration of the third loop of `Match::valid`: a `None` position
forbids any remaining occurrence of its letter. -/
def validStep3 (m : Match) (acc : Option Word) (i : Nat) : Option Word :=
  match acc with
  | none => none
  | some w =>
    match m.status.get i with
    | Status.None => if (find_in_word w (m.word.get i)).isSome then none else some w
    | _ => some w

/-- Mirrors `Match::valid(&self, word)`. -/
def Match.valid (m : Match) (word : Word) : Bool :=
  let a1 := [0, 1, 2, 3, 4].foldl (validStep1 m) (some word)
  let a2 := [0, 1, 2, 3, 4].foldl (validStep2 m) a1
  let a3 := [0, 1, 2, 3, 4].foldl (validStep3 m) a2
  a3.isSome

/-- The word "abbey". -/
def abbey : Word := ⟨'a', 'b', 'b', 'e', 'y'⟩

/-- The word "aback". -/
def aback : Word := ⟨'a', 'b', 'a', 'c', 'k'⟩

/-- Claim C1: the claim states that for every guess and answer,
`Match::valid(Match::compute(g, a), a)` returns true.  It fails on the code:
for guess "abbey" and answer "aback" the computed feedback marks position 0
`Found` (the second pass overwrites the `Exact` from pass 1), and `valid`
then rejects "aback" itself because its letter at position 0 equals the
guess letter there. -/
theorem valid_compute_self_fails_on_aback :
    (Match.compute abbey aback).valid aback = false := by decide

/-- Claim C2: the claim states that a position marked `Exact` in pass 1 keeps
status `Exact` in the feedback returned by `Match::compute`.  It fails on the
code: for guess "abbey" and answer "aback" the letters at position 0 agree
(both 'a', so pass 1 marks `Exact` there), yet the returned status at
position 0 is `Found`, because the second loop of `compute` runs over all
five positions and overwrites `Exact` when the letter still occurs in the
scratch answer. -/
theorem compute_pass2_overwrites_exact :
    abbey.l0 = aback.l0 ∧
    (Match.compute abbey aback).status =
      ⟨Status.Found, Status.Exact, Status.None, Status.None, Status.None⟩ := by decide

/-- Mirrors `fn found`: count the words of the list accepted by `res.valid`,
written as the Rust loop with a running sum. -/
def found (res : Match) (words : List Word) : Nat :=
  words.foldl (fun sum word => if res.valid word then sum + 1 else sum) 0

/-- Mirrors `fn score`: sum, over each hypothetical answer in the list, of how
many list words stay consistent with the feedback the guess would get. -/
def score (guess : Word) (words : List Word) : Nat :=
  (words.map fun ans => found (Match.compute guess ans) words).sum

/-- Mirrors `fn filter`: `words.retain(|x| res.valid(*x))`. -/
def filterWords (res : Match) (words : List Word) : List Word :=
  words.filter fun x => res.valid x

/-- The tie-keeping minimum of rayon's `min_by(|a, b| a.1.cmp(&b.1))` over a
non-empty sequence: the combining operation keeps the earlier element unless
the later one is strictly smaller, so the overall result is the first
minimum in sequence order. -/
def minByScore (x : Word × Nat) (xs : List (Word × Nat)) : Word × Nat :=
  xs.foldl (fun a b => if b.2 < a.2 then b else a) x

/-- Mirrors `fn best_word`; `none` models the `unwrap` panic on an empty
guess dictionary. -/
def best_word (full_words ans : List Word) : Option Word :=
  match full_words.map fun w => (w, score w ans) with
  | [] => none
  | x :: xs => some (minByScore x xs).1

/-- The character decoding inside `Match::mask`:
`'='` is `Exact`, `'~'` is `Found`, `'.'` is `None`; anything else panics. -/
def charStatus (c : Char) : Option Status :=
  if c = '=' then some Status.Exact
  else if c = '~' then some Status.Found
  else if c = '.' then some Status.None
  else none

/-- One iteration of the loop of `Match::mask`: `res.chars().nth(i).unwrap()`
panics (`none`) when the input has no `i`-th character, and an unrecognized
character panics as well. -/
def maskStep (res : List Char) (acc : Option StatusRow) (i : Nat) : Option StatusRow :=
  match acc with
  | none => none
  | some st =>
    match res.get? i with
    | none => none
    | some c =>
      match charStatus c with
      | some s => some (st.set i s)
      | none => none

/-- Mirrors `Match::mask(res)`; only the status array is returned (the Rust
function discards the placeholder word of `Match::new`). -/
def Match.mask (res : List Char) : Option StatusRow :=
  [0, 1, 2, 3, 4].foldl (maskStep res) (some StatusRow.allNone)

/-- Mirrors the win test `match mask { [Exact, Exact, Exact, Exact, Exact] => ... }`. -/
def allExact (r : StatusRow) : Bool :=
  match r with
  | ⟨Status.Exact, Status.Exact, Status.Exact, Status.Exact, Status.Exact⟩ => true
  | _ => false

/-- The post-filter decision of the loop body of `fn guesser`, matching on
`answers.len()`: an empty candidate set is reset to the full dictionary with
the last word kept, one or two candidates make the first candidate the next
guess, and otherwise the next guess is `best_word` (whose `unwrap` panic is
the `none` outcome). Returns the new candidate set and the next guess. -/
def nextChoice (full_words : List Word) (filtered : List Word) (last_word : Word) :
    Option (List Word × Word) :=
  match filtered with
  | [] => some (full_words, last_word)
  | a :: rest =>
    if rest.length ≤ 1 then some (filtered, a)
    else (best_word full_words filtered).map fun w => (filtered, w)

/-- Outcome of a fuelled run of the `fn guesser` loop: the Rust loop is
unbounded, so `fuelOut` marks runs longer than the supplied fuel, and
`crashed` marks the `unwrap` panic inside `best_word`. -/
inductive RunResult where
  | won (guesses : Nat)
  | fuelOut
  | crashed
deriving DecidableEq

/-- The loop of `fn guesser`, with explicit state (`answers`, `last_word`,
`guesses`) and fuel; also returns the list of guesses handed to `program`
(the feedback source), in order. -/
def guesserLoop (full_words : List Word) (program : Word → StatusRow) :
    Nat → List Word → Word → Nat → RunResult × List Word
  | 0, _, _, _ => (RunResult.fuelOut, [])
  | Nat.succ fuel, answers, last_word, guesses =>
    let mask := program last_word
    let filtered := filterWords { word := last_word, status := mask } answers
    if allExact mask then (RunResult.won (guesses + 1), [last_word])
    else
      match nextChoice full_words filtered last_word with
      | none => (RunResult.crashed, [last_word])
      | some (answers2, word2) =>
        let r := guesserLoop full_words program fuel answers2 word2 (guesses + 1)
        (r.1, last_word :: r.2)

/-- The hard-coded opening guess `Word::from("roate")`. -/
def roate : Word := ⟨'r', 'o', 'a', 't', 'e'⟩

/-- Mirrors `fn guesser`: clone the answer list, start from the constant
opening guess "roate" with zero guesses taken, and loop. -/
def guesser (full_words answers : List Word) (program : Word → StatusRow)
    (fuel : Nat) : RunResult × List Word :=
  guesserLoop full_words program fuel answers roate 0

/-- Mirrors `fn simulate`: the feedback source computes the feedback of each
guess against the fixed true answer. -/
def simulate (true_ans : Word) (full_words answers : List Word) (fuel : Nat) :
    RunResult × List Word :=
  guesser full_words answers (fun word => (Match.compute word true_ans).status) fuel

/-- The word "crane". -/
def crane : Word := ⟨'c', 'r', 'a', 'n', 'e'⟩

/-- The word "slate". -/
def slate : Word := ⟨'s', 'l', 'a', 't', 'e'⟩

/-- The word "trace". -/
def traceWord : Word := ⟨'t', 'r', 'a', 'c', 'e'⟩

/-- Claim C3 counterexample: the claim asserts that the opening guess "crane"
yields the feedback status sequence Found, None, Exact, Found, Exact against
the answer "trace".  Computing `Match::compute("crane", "trace")` gives
Found, Exact, Exact, None, Exact instead ('r', 'a' and 'e' are exact
matches), so the claim is false as stated. -/
theorem crane_feedback_not_as_claimed :
    (Match.compute crane traceWord).status ≠
      ⟨Status.Found, Status.None, Status.Exact, Status.Found, Status.Exact⟩ := by decide

/-- Claim C3 (amended): with guess dictionary = answer dictionary =
{"crane", "slate", "trace"} and hidden answer "trace", the opening guess is
the hard-coded "roate" (not "crane"); it yields the feedback status sequence
Found, None, Exact, Found, Exact, filtering with that feedback shrinks the
candidate set to exactly {"trace"}, "trace" is guessed next, and the game
ends all-Exact in 2 turns. -/
theorem scenario_roate_trace_two_turns :
    (Match.compute roate traceWord).status =
      ⟨Status.Found, Status.None, Status.Exact, Status.Found, Status.Exact⟩ ∧
    filterWords { word := roate, status := (Match.compute roate traceWord).status }
      [crane, slate, traceWord] = [traceWord] ∧
    simulate traceWord [crane, slate, traceWord] [crane, slate, traceWord] 10 =
      (RunResult.won 2, [roate, traceWord]) := by decide

theorem aback_loop_step (n g : Nat) :
    guesserLoop [aback] (fun w => (Match.compute w aback).status) (n + 1) [aback] roate g =
      ((guesserLoop [aback] (fun w => (Match.compute w aback).status) n [aback] roate (g + 1)).1,
        roate :: (guesserLoop [aback] (fun w => (Match.compute w aback).status) n
          [aback] roate (g + 1)).2) := rfl

/-- Claim C8: the claim states that in simulation mode the game loop reaches
all-Exact feedback within a bounded number of turns for every hidden answer
in the answer dictionary.  It fails on the code: with guess dictionary =
answer dictionary = ["aback"] and hidden answer "aback", the feedback for
the fixed opener "roate" is None, None, Found, None, None (the pass-2 bug
downgrades the exact 'a'), `valid` then rejects "aback" itself, the filtered
set is empty every turn, the reset keeps `last_word` unchanged, and the loop
repeats the guess "roate" forever: no amount of fuel reaches a win. -/
theorem simulate_aback_never_terminates (fuel : Nat) :
    (simulate aback [aback] [aback] fuel).1 = RunResult.fuelOut := by
  have key : ∀ n g,
      (guesserLoop [aback] (fun w => (Match.compute w aback).status) n [aback] roate g).1 =
        RunResult.fuelOut := by
    intro n
    induction n with
    | zero => intro g; rfl
    | succ n ih =>
      intro g
      rw [aback_loop_step]
      exact ih (g + 1)
  exact key fuel 0

theorem found_eq_length_filter (m : Match) (ws : List Word) :
    found m ws = (ws.filter fun w => m.valid w).length := by
  have aux : ∀ (l : List Word) (n : Nat),
      l.foldl (fun sum word => if m.valid word then sum + 1 else sum) n =
        n + (l.filter fun w => m.valid w).length := by
    intro l
    induction l with
    | nil => intro n; simp
    | cons a t ih =>
      intro n
      cases h : m.valid a with
      | true => simp [List.filter_cons, h, ih]; omega
      | false => simp [List.filter_cons, h, ih]
  simpa using aux ws 0

/-- Claim C7: for every guess word `g` and candidate-answer list `ws`,
`score(g, ws)` equals the sum, over each word `a` of `ws` treated as a
hypothetical true answer, of the number of words of `ws` that are consistent
(per `Match::valid`) with the feedback `Match::compute(g, a)`. -/
theorem score_sums_consistent_counts (guess : Word) (ws : List Word) :
    score guess ws =
      (ws.map fun a => (ws.filter fun w => (Match.compute guess a).valid w).length).sum := by
  simp only [score, found_eq_length_filter]

/-- Claim C6: in every game-loop turn the filtering step never increases the
candidate set (the post-filter list is a sublist of the pre-filter list, so
in particular no longer), and the decision taken on the filtered set
replaces it by the full guess dictionary exactly when the filtered size is
0 — whenever the filtered set is non-empty, the candidate set it hands to
the next turn is the filtered set itself. -/
theorem filter_shrinks_reset_only_empty (res : Match) (words full : List Word) (lw : Word) :
    (filterWords res words).Sublist words ∧
    (filterWords res words).length ≤ words.length ∧
    (filterWords res words = [] → nextChoice full (filterWords res words) lw = some (full, lw)) ∧
    (filterWords res words ≠ [] →
      ∀ p, nextChoice full (filterWords res words) lw = some p → p.1 = filterWords res words) := by
  refine ⟨List.filter_sublist words, (List.filter_sublist words).length_le, ?_, ?_⟩
  · intro h
    rw [h]
    rfl
  · intro h p hp
    rcases hf : filterWords res words with _ | ⟨a, rest⟩
    · exact absurd hf h
    · simp only [nextChoice, hf] at hp
      by_cases hr : rest.length ≤ 1
      · rw [if_pos hr] at hp
        cases hp
        rfl
      · rw [if_neg hr] at hp
        rcases Option.map_eq_some'.mp hp with ⟨w, hw, rfl⟩
        rfl

theorem filter_shrinks_reset_only_empty_witness :
    (filterWords { word := abbey, status := StatusRow.allNone } [abbey]).Sublist [abbey] ∧
    (filterWords { word := abbey, status := StatusRow.allNone } [abbey]).length ≤
      ([abbey] : List Word).length ∧
    (filterWords { word := abbey, status := StatusRow.allNone } [abbey] = [] →
      nextChoice [aback] (filterWords { word := abbey, status := StatusRow.allNone } [abbey])
        roate = some ([aback], roate)) ∧
    (filterWords { word := abbey, status := StatusRow.allNone } [abbey] ≠ [] →
      ∀ p, nextChoice [aback] (filterWords { word := abbey, status := StatusRow.allNone } [abbey])
        roate = some p →
      p.1 = filterWords { word := abbey, status := StatusRow.allNone } [abbey]) :=
  filter_shrinks_reset_only_empty { word := abbey, status := StatusRow.allNone } [abbey]
    [aback] roate

/-- Claim C10: calling `best_word` with an empty guess dictionary hits the
`unwrap` of the absent minimum (modelled as the `none` result), while for
any non-empty guess dictionary a word is always returned. -/
theorem best_word_empty_none_nonempty_some :
    (∀ ans : List Word, best_word [] ans = none) ∧
    (∀ (l ans : List Word), l ≠ [] → (best_word l ans).isSome = true) := by
  constructor
  · intro ans
    rfl
  · intro l ans h
    match l with
    | [] => exact absurd rfl h
    | a :: t => rfl

theorem best_word_empty_none_nonempty_some_witness :
    (best_word [abbey] []).isSome = true :=
  best_word_empty_none_nonempty_some.2 [abbey] [] (List.cons_ne_nil abbey [])

theorem guesserLoop_trace_head (full : List Word) (program : Word → StatusRow)
    (n : Nat) (answers : List Word) (lw : Word) (g : Nat) :
    (guesserLoop full program (n + 1) answers lw g).2.head? = some lw := by
  simp only [guesserLoop]
  split
  · rfl
  · split
    · rfl
    · rfl

/-- Claim C9: regardless of the dictionaries supplied and of the feedback
source, the first guess the game loop hands to the feedback source is the
constant word "roate": the head of the guess trace is "roate" for every
guess dictionary, answer dictionary and feedback program. -/
theorem first_guess_is_roate (full answers : List Word) (program : Word → StatusRow)
    (fuel : Nat) (h : 0 < fuel) :
    (guesser full answers program fuel).2.head? = some roate := by
  obtain ⟨n, rfl⟩ : ∃ n, fuel = n + 1 := ⟨fuel - 1, (Nat.succ_pred_eq_of_pos h).symm⟩
  exact guesserLoop_trace_head full program n answers roate 0

theorem first_guess_is_roate_witness :
    0 < 1 ∧ (guesser [] [] (fun _ => StatusRow.allNone) 1).2.head? = some roate :=
  ⟨Nat.one_pos, first_guess_is_roate [] [] (fun _ => StatusRow.allNone) 1 Nat.one_pos⟩

theorem minByScore_spec (xs : List (Word × Nat)) (x : Word × Nat) :
    ∃ l1 l2, x :: xs = l1 ++ minByScore x xs :: l2 ∧
      (∀ b ∈ x :: xs, (minByScore x xs).2 ≤ b.2) ∧
      (∀ b ∈ l1, (minByScore x xs).2 < b.2) := by
  induction xs generalizing x with
  | nil =>
    refine ⟨[], [], rfl, ?_, fun b hb => absurd hb (List.not_mem_nil b)⟩
    intro b hb
    rw [List.mem_singleton] at hb
    rw [hb]
    exact le_rfl
  | cons y rest ih =>
    have hfold : minByScore x (y :: rest) = minByScore (if y.2 < x.2 then y else x) rest := rfl
    by_cases h : y.2 < x.2
    · rw [if_pos h] at hfold
      obtain ⟨l1, l2, hd, hmin, hstr⟩ := ih y
      rw [hfold]
      refine ⟨x :: l1, l2, ?_, ?_, ?_⟩
      · rw [List.cons_append, ← hd]
      · intro b hb
        rcases List.mem_cons.mp hb with hb | hb
        · rw [hb]
          exact le_of_lt (lt_of_le_of_lt (hmin y (List.mem_cons_self y rest)) h)
        · exact hmin b hb
      · intro b hb
        rcases List.mem_cons.mp hb with hb | hb
        · rw [hb]
          exact lt_of_le_of_lt (hmin y (List.mem_cons_self y rest)) h
        · exact hstr b hb
    · rw [if_neg h] at hfold
      obtain ⟨l1, l2, hd, hmin, hstr⟩ := ih x
      rw [hfold]
      have hxy : x.2 ≤ y.2 := Nat.le_of_not_lt h
      cases l1 with
      | nil =>
        rw [List.nil_append] at hd
        have hx : x = minByScore x rest := ((List.cons.injEq _ _ _ _).mp hd).1
        have hrest : rest = l2 := ((List.cons.injEq _ _ _ _).mp hd).2
        refine ⟨[], y :: rest, ?_, ?_, fun b hb => absurd hb (List.not_mem_nil b)⟩
        · rw [List.nil_append, ← hx]
        · intro b hb
          rcases List.mem_cons.mp hb with hb | hb
          · rw [hb, ← hx]
          · rcases List.mem_cons.mp hb with hb2 | hb2
            · rw [hb2, ← hx]
              exact hxy
            · exact hmin b (List.mem_cons_of_mem x hb2)
      | cons z l1t =>
        rw [List.cons_append] at hd
        have hxz : x = z := ((List.cons.injEq _ _ _ _).mp hd).1
        have hrest : rest = l1t ++ minByScore x rest :: l2 := ((List.cons.injEq _ _ _ _).mp hd).2
        have hstrx : (minByScore x rest).2 < x.2 := by
          have h1 := hstr z (List.mem_cons_self z l1t)
          rw [← hxz] at h1
          exact h1
        refine ⟨x :: y :: l1t, l2, ?_, ?_, ?_⟩
        · rw [List.cons_append, List.cons_append, ← hrest]
        · intro b hb
          rcases List.mem_cons.mp hb with hb | hb
          · rw [hb]
            exact hmin x (List.mem_cons_self x rest)
          · rcases List.mem_cons.mp hb with hb2 | hb2
            · rw [hb2]
              exact le_of_lt (lt_of_lt_of_le hstrx hxy)
            · exact hmin b (List.mem_cons_of_mem x hb2)
        · intro b hb
          rcases List.mem_cons.mp hb with hb | hb
          · rw [hb]
            exact hstrx
          · rcases List.mem_cons.mp hb with hb2 | hb2
            · rw [hb2]
              exact lt_of_lt_of_le hstrx hxy
            · exact hstr b (List.mem_cons_of_mem z hb2)

/-- Claim C4: for every non-empty guess dictionary `l` and candidate-answer
list `ans`, `best_word` returns a dictionary word whose score against `ans`
is minimal, and among the words attaining the minimal score it returns the
first one in dictionary order: every word strictly before it in the list has
a strictly larger score. -/
theorem best_word_first_min (l ans : List Word) (h : l ≠ []) :
    ∃ w l1 l2, best_word l ans = some w ∧ l = l1 ++ w :: l2 ∧
      (∀ v ∈ l, score w ans ≤ score v ans) ∧
      (∀ v ∈ l1, score w ans < score v ans) := by
  match l, h with
  | a :: t, _ =>
    obtain ⟨p1, p2, hd, hmin, hstr⟩ :=
      minByScore_spec (t.map fun w => (w, score w ans)) (a, score a ans)
    have hd' : (a :: t).map (fun w => (w, score w ans)) =
        p1 ++ minByScore (a, score a ans) (t.map fun w => (w, score w ans)) :: p2 := by
      simpa using hd
    obtain ⟨m1, mrest, hm, hmap1, hmap2⟩ := List.map_eq_append_iff.mp hd'
    obtain ⟨b, m2, hmrest, hb, hmap3⟩ := List.map_eq_cons_iff.mp hmap2
    have hb1 : minByScore (a, score a ans) (t.map fun w => (w, score w ans)) = (b, score b ans) :=
      hb.symm
    refine ⟨b, m1, m2, ?_, ?_, ?_, ?_⟩
    · show some (minByScore (a, score a ans) (t.map fun w => (w, score w ans))).1 = some b
      rw [hb1]
    · rw [hm, hmrest]
    · intro v hv
      have hvp : (v, score v ans) ∈ (a :: t).map (fun w => (w, score w ans)) :=
        List.mem_map_of_mem _ hv
      have := hmin (v, score v ans) (by simpa using hvp)
      rw [hb1] at this
      exact this
    · intro v hv
      have hvp : (v, score v ans) ∈ p1 := by
        rw [← hmap1]
        exact List.mem_map_of_mem _ hv
      have := hstr (v, score v ans) hvp
      rw [hb1] at this
      exact this

theorem best_word_first_min_witness :
    ([abbey] : List Word) ≠ [] ∧
      (∃ w l1 l2, best_word [abbey] [] = some w ∧ ([abbey] : List Word) = l1 ++ w :: l2 ∧
        (∀ v ∈ ([abbey] : List Word), score w [] ≤ score v []) ∧
        (∀ v ∈ l1, score w [] < score v [])) :=
  ⟨List.cons_ne_nil abbey [], best_word_first_min [abbey] [] (List.cons_ne_nil abbey [])⟩

/-- Claim C5 counterexample: the claim states that feedback parsing fails
whenever the input's length is not exactly 5.  But `Match::mask` reads only
the first five characters, so the 6-character input "......" is accepted and
parsed to the all-None row instead of failing. -/
theorem mask_accepts_six_chars :
    (['.', '.', '.', '.', '.', '.'] : List Char).length ≠ 5 ∧
    Match.mask ['.', '.', '.', '.', '.', '.'] =
      some ⟨Status.None, Status.None, Status.None, Status.None, Status.None⟩ := by decide

/-- The recognized feedback symbols of the notation, per the spec. -/
def isRecognized (c : Char) : Bool :=
  (c == '=') || (c == '~') || (c == '.')

/-- The positional symbol-to-status mapping of the notation, per the spec:
'=' is Exact, '~' is Found, '.' is None. -/
def symStatus (c : Char) : Status :=
  if c = '=' then Status.Exact
  else if c = '~' then Status.Found
  else Status.None

theorem charStatus_eq (c : Char) :
    charStatus c = if isRecognized c then some (symStatus c) else none := by
  by_cases h1 : c = '='
  · simp [charStatus, isRecognized, symStatus, h1]
  · by_cases h2 : c = '~'
    · simp [charStatus, isRecognized, symStatus, h1, h2]
    · by_cases h3 : c = '.'
      · simp [charStatus, isRecognized, symStatus, h1, h2, h3]
      · simp [charStatus, isRecognized, symStatus, h1, h2, h3]

theorem maskStep_get_none (res : List Char) (i : Nat) (h : res.get? i = none)
    (acc : Option StatusRow) : maskStep res acc i = none := by
  cases acc <;> simp only [maskStep, h]

theorem mask_short (res : List Char) (h : res.length < 5) : Match.mask res = none := by
  have h4 : res.get? 4 = none := List.get?_eq_none.mpr (by omega)
  show maskStep res (([0, 1, 2, 3] : List Nat).foldl (maskStep res) (some StatusRow.allNone)) 4 =
    none
  exact maskStep_get_none res 4 h4 _

theorem mask_cons5 (c0 c1 c2 c3 c4 : Char) (rest : List Char) :
    Match.mask (c0 :: c1 :: c2 :: c3 :: c4 :: rest) =
      (charStatus c0).bind fun s0 =>
      (charStatus c1).bind fun s1 =>
      (charStatus c2).bind fun s2 =>
      (charStatus c3).bind fun s3 =>
      (charStatus c4).map fun s4 => ⟨s0, s1, s2, s3, s4⟩ := by
  cases h0 : charStatus c0 <;> cases h1 : charStatus c1 <;> cases h2 : charStatus c2 <;>
    cases h3 : charStatus c3 <;> cases h4 : charStatus c4 <;>
      simp [Match.mask, maskStep, List.get?, h0, h1, h2, h3, h4, StatusRow.set, StatusRow.allNone]

/-- Claim C5 (amended): `Match::mask` fails exactly when the input has fewer
than 5 characters or one of its first five characters is outside the three
recognized symbols; when the first five characters are all recognized it
returns the status array mapping them positionally ('=' to Exact, '~' to
Found, '.' to None), ignoring any characters past the fifth. -/
theorem mask_malformed_characterization (res : List Char) :
    (Match.mask res = none ↔ res.length < 5 ∨ ∃ c ∈ res.take 5, isRecognized c = false) ∧
    (∀ c0 c1 c2 c3 c4 rest, res = c0 :: c1 :: c2 :: c3 :: c4 :: rest →
      isRecognized c0 = true → isRecognized c1 = true → isRecognized c2 = true →
      isRecognized c3 = true → isRecognized c4 = true →
      Match.mask res =
        some ⟨symStatus c0, symStatus c1, symStatus c2, symStatus c3, symStatus c4⟩) := by
  constructor
  · by_cases hlen : res.length < 5
    · simp [mask_short res hlen, hlen]
    · rcases res with _ | ⟨c0, _ | ⟨c1, _ | ⟨c2, _ | ⟨c3, _ | ⟨c4, rest⟩⟩⟩⟩⟩
      · exact absurd (by simp) hlen
      · exact absurd (by simp) hlen
      · exact absurd (by simp) hlen
      · exact absurd (by simp) hlen
      · exact absurd (by simp) hlen
      · rw [mask_cons5, charStatus_eq c0, charStatus_eq c1, charStatus_eq c2, charStatus_eq c3,
          charStatus_eq c4]
        cases r0 : isRecognized c0 <;> cases r1 : isRecognized c1 <;>
          cases r2 : isRecognized c2 <;> cases r3 : isRecognized c3 <;>
            cases r4 : isRecognized c4 <;>
              simp [r0, r1, r2, r3, r4, hlen]
  · intro c0 c1 c2 c3 c4 rest hres h0 h1 h2 h3 h4
    subst hres
    rw [mask_cons5, charStatus_eq c0, charStatus_eq c1, charStatus_eq c2, charStatus_eq c3,
      charStatus_eq c4]
    simp [h0, h1, h2, h3, h4]

theorem mask_malformed_characterization_witness :
    Match.mask ['=', '~', '.', '=', '~'] =
      some ⟨symStatus '=', symStatus '~', symStatus '.', symStatus '=', symStatus '~'⟩ :=
  (mask_malformed_characterization ['=', '~', '.', '=', '~']).2 '=' '~' '.' '=' '~' []
    rfl rfl rfl rfl rfl rfl

end WordleSolver
